import Mathlib

/-!
Shallow embedding of the `ijagberg/chess` rules engine.

The board, move generation, move application, FEN codec and game layer are
translated from `src/chess_board.rs`, `src/chess_move.rs`, `src/fen.rs` and
`src/game.rs`.  The square/bitboard primitives (`Position`, `Rank`, `File`,
attack-target functions) live in the external `bitboard64` crate, which is not
part of this repository; those definitions are modelled from the
specification, and each such definition's doc comment says so.

Rust panics (`unwrap`, `panic!` in the source) are modelled by `Option`:
`none` is a panic, `some` a normal return.  Fallible parsing is
`Except String`.  Machine integers (`u32` clocks) are `Nat` with the u32
bound enforced where the source parses them.
-/

namespace Chess

/-- Piece color, from `Color` in the crate root (variants in source order). -/
inductive Color where
  | black
  | white
deriving DecidableEq, Repr

/-- `Color::opponent`. -/
def Color.opponent : Color → Color
  | .black => .white
  | .white => .black

/-- `PieceType` from `src/piece.rs`. -/
inductive PieceType where
  | pawn
  | knight
  | bishop
  | rook
  | queen
  | king
deriving DecidableEq, Repr

/-- `Piece` from `src/piece.rs`: a color and a kind. -/
structure Piece where
  color : Color
  kind : PieceType
deriving DecidableEq, Repr

/-- Modelled from the spec: a square is a file (0 = A .. 7 = H) and a rank
(0 = rank 1 .. 7 = rank 8).  `bitboard64::Position` is external to the repo. -/
structure Position where
  file : Fin 8
  rank : Fin 8
deriving DecidableEq, Repr

/-- Modelled from the spec: the canonical square-to-bit mapping
`index = 8 * rank + file` (A1 = 0, H8 = 63). -/
def Position.idx (p : Position) : Nat := 8 * p.rank.val + p.file.val

/-- Build a square from raw file/rank numbers (callers pass values < 8). -/
def mkPos (f r : Nat) : Position :=
  ⟨⟨f % 8, Nat.mod_lt f (by decide)⟩, ⟨r % 8, Nat.mod_lt r (by decide)⟩⟩

/-- Modelled from the spec: off-board steps return `none` (spec 4.A `step`). -/
def mkPosChecked (f r : Int) : Option Position :=
  if 0 ≤ f ∧ f < 8 ∧ 0 ≤ r ∧ r < 8 then some (mkPos f.toNat r.toNat) else none

/-- Modelled from the spec: `Position::step`/offset arithmetic (spec 4.A). -/
def Position.step (p : Position) (df dr : Int) : Option Position :=
  mkPosChecked ((p.file.val : Int) + df) ((p.rank.val : Int) + dr)

def Position.up (p : Position) : Option Position := p.step 0 1
def Position.down (p : Position) : Option Position := p.step 0 (-1)
def Position.upLeft (p : Position) : Option Position := p.step (-1) 1
def Position.upRight (p : Position) : Option Position := p.step 1 1
def Position.downLeft (p : Position) : Option Position := p.step (-1) (-1)
def Position.downRight (p : Position) : Option Position := p.step 1 (-1)

/-- Modelled from the spec: taxicab distance between two squares, used by
`make_move` to recognise a pawn double push. -/
def Position.manhattanDistanceTo (p q : Position) : Nat :=
  ((p.file.val : Int) - (q.file.val : Int)).natAbs
    + ((p.rank.val : Int) - (q.rank.val : Int)).natAbs

/-- Modelled from the spec: `Rank::up` (next rank toward 8, `none` past it). -/
def rankUp (r : Fin 8) : Option (Fin 8) :=
  if h : r.val + 1 < 8 then some ⟨r.val + 1, h⟩ else none

/-- Modelled from the spec: `Rank::down` (next rank toward 1). -/
def rankDown (r : Fin 8) : Option (Fin 8) :=
  match r with
  | ⟨0, _⟩ => none
  | ⟨n + 1, h⟩ => some ⟨n, Nat.lt_of_succ_lt h⟩

/-- Modelled from the spec: a bitboard is a 64-bit integer read as a set of
squares (bit `idx p` = membership of `p`). -/
abbrev Bitboard := Nat

/-- The all-ones 64-bit mask. -/
def mask64 : Bitboard := 2 ^ 64 - 1

/-- Bitwise complement within 64 bits (`!bb` in the source). -/
def bbNot (b : Bitboard) : Bitboard := mask64 ^^^ b

/-- Modelled from the spec: `Bitboard::with_one`. -/
def bbOne (p : Position) : Bitboard := 1 <<< p.idx

/-- All 64 squares in increasing bit order (A1, B1, …, H8). -/
def allPositions : List Position :=
  (List.finRange 8).flatMap fun r => (List.finRange 8).map fun f => ⟨f, r⟩

/-- Modelled from the spec: `Bitboard::positions`, the set bits in
increasing bit order. -/
def bbPositions (b : Bitboard) : List Position :=
  allPositions.filter fun p => b.testBit p.idx

/-- Modelled from the spec: `Bitboard::first_position` (lowest set bit). -/
def bbFirstPosition (b : Bitboard) : Option Position :=
  (bbPositions b).head?

-- Named square constants mirroring `bitboard64`'s `A1 .. H8`.
def a1 : Position := mkPos 0 0
def b1 : Position := mkPos 1 0
def c1 : Position := mkPos 2 0
def d1 : Position := mkPos 3 0
def e1 : Position := mkPos 4 0
def f1 : Position := mkPos 5 0
def g1 : Position := mkPos 6 0
def h1 : Position := mkPos 7 0
def a2 : Position := mkPos 0 1
def e2 : Position := mkPos 4 1
def h2 : Position := mkPos 7 1
def a3 : Position := mkPos 0 2
def f3 : Position := mkPos 5 2
def e3 : Position := mkPos 4 2
def a4 : Position := mkPos 0 3
def e4 : Position := mkPos 4 3
def a7 : Position := mkPos 0 6
def e7 : Position := mkPos 4 6
def h7 : Position := mkPos 7 6
def a8 : Position := mkPos 0 7
def b8 : Position := mkPos 1 7
def c8 : Position := mkPos 2 7
def d8 : Position := mkPos 3 7
def e8 : Position := mkPos 4 7
def f8 : Position := mkPos 5 7
def g8 : Position := mkPos 6 7
def h8 : Position := mkPos 7 7

/-- Modelled from the spec: `Bitboard::with_ones`. -/
def bbWithOnes (ps : List Position) : Bitboard :=
  ps.foldl (fun b p => b ||| bbOne p) 0

/-- `PromotionPiece` from `src/chess_move.rs`. -/
inductive PromotionPiece where
  | knight
  | bishop
  | rook
  | queen
deriving DecidableEq, Repr

/-- `PromotionPiece::create_piece`. -/
def PromotionPiece.createPiece : PromotionPiece → Color → Piece
  | .knight, color => ⟨color, .knight⟩
  | .bishop, color => ⟨color, .bishop⟩
  | .rook, color => ⟨color, .rook⟩
  | .queen, color => ⟨color, .queen⟩

/-- `ChessMove` from `src/chess_move.rs` (`from` is a Lean keyword, so the
field is `from_`). -/
inductive ChessMove where
  | regular (from_ to_ : Position)
  | enPassant (from_ to_ takenOriginalIndex takenIndex : Position)
  | promotion (from_ to_ : Position) (piece : PromotionPiece)
  | castle (rookFrom rookTo kingFrom kingTo : Position)
deriving DecidableEq, Repr

/-- `ChessMove::from`. -/
def ChessMove.from_ : ChessMove → Position
  | .regular f _ => f
  | .enPassant f _ _ _ => f
  | .promotion f _ _ => f
  | .castle _ _ kf _ => kf

/-- `ChessMove::to`. -/
def ChessMove.to : ChessMove → Position
  | .regular _ t => t
  | .enPassant _ t _ _ => t
  | .promotion _ t _ => t
  | .castle _ _ _ kt => kt

/-- `ChessMove::promotion_moves`: the four promotions, in source order. -/
def ChessMove.promotionMoves (from_ to_ : Position) : List ChessMove :=
  [PromotionPiece.bishop, .knight, .rook, .queen].map fun piece =>
    ChessMove.promotion from_ to_ piece

/-- `ChessMove::is_en_passant`. -/
def ChessMove.isEnPassant : ChessMove → Bool
  | .enPassant _ _ _ _ => true
  | _ => false

/-- `ChessMove::is_promotion`. -/
def ChessMove.isPromotion : ChessMove → Bool
  | .promotion _ _ _ => true
  | _ => false

/-- `CastlingRights` from `src/chess_move.rs`. -/
structure CastlingRights where
  whiteKingside : Bool
  whiteQueenside : Bool
  blackKingside : Bool
  blackQueenside : Bool
deriving DecidableEq, Repr

/-- `CastlingRights::default`: all four rights held. -/
def CastlingRights.default : CastlingRights := ⟨true, true, true, true⟩

/-- `CastlingRights::as_fen_string`. -/
def CastlingRights.asFenString (cr : CastlingRights) : String :=
  if cr.whiteKingside = false ∧ cr.whiteQueenside = false
      ∧ cr.blackKingside = false ∧ cr.blackQueenside = false then
    "-"
  else
    (if cr.whiteKingside then "K" else "")
      ++ (if cr.whiteQueenside then "Q" else "")
      ++ (if cr.blackKingside then "k" else "")
      ++ (if cr.blackQueenside then "q" else "")

/-- The per-character loop of `impl FromStr for CastlingRights`: each of
`K`, `Q`, `k`, `q` sets its flag, a repeated or unknown letter is an error. -/
def castlingRightsCharsLoop :
    List Char → Bool → Bool → Bool → Bool → Except String CastlingRights
  | [], wk, wq, bk, bq => .ok ⟨wk, wq, bk, bq⟩
  | c :: rest, wk, wq, bk, bq =>
    if c = 'K' then
      if wk = false then castlingRightsCharsLoop rest true wq bk bq
      else .error "invalid castling rights"
    else if c = 'Q' then
      if wq = false then castlingRightsCharsLoop rest wk true bk bq
      else .error "invalid castling rights"
    else if c = 'k' then
      if bk = false then castlingRightsCharsLoop rest wk wq true bq
      else .error "invalid castling rights"
    else if c = 'q' then
      if bq = false then castlingRightsCharsLoop rest wk wq bk true
      else .error "invalid castling rights"
    else .error "invalid castling rights"

/-- `impl FromStr for CastlingRights` from `src/chess_move.rs`: note the
source maps `"-"` to all four flags `true`. -/
def CastlingRights.fromStr (s : String) : Except String CastlingRights :=
  if s ≠ "-" then
    if s.isEmpty then .error "invalid castling rights"
    else castlingRightsCharsLoop s.data false false false false
  else .ok ⟨true, true, true, true⟩

/-- `ChessBoard` from `src/chess_board.rs`: twelve piece bitboards plus the
nine aggregates, exactly the source fields. -/
structure ChessBoard where
  whiteKings : Bitboard
  blackKings : Bitboard
  allKings : Bitboard
  whiteQueens : Bitboard
  blackQueens : Bitboard
  allQueens : Bitboard
  whiteRooks : Bitboard
  blackRooks : Bitboard
  allRooks : Bitboard
  whiteKnights : Bitboard
  blackKnights : Bitboard
  allKnights : Bitboard
  whiteBishops : Bitboard
  blackBishops : Bitboard
  allBishops : Bitboard
  whitePawns : Bitboard
  blackPawns : Bitboard
  allPawns : Bitboard
  whitePieces : Bitboard
  blackPieces : Bitboard
  allPieces : Bitboard
deriving DecidableEq, Repr

/-- `ChessBoard::new` (also `Default`): the standard starting position. -/
def ChessBoard.new : ChessBoard :=
  let whiteKings := bbOne e1
  let blackKings := bbOne e8
  let whiteQueens := bbOne d1
  let blackQueens := bbOne d8
  let whiteRooks := bbWithOnes [a1, h1]
  let blackRooks := bbWithOnes [a8, h8]
  let whiteKnights := bbWithOnes [b1, g1]
  let blackKnights := bbWithOnes [b8, g8]
  let whiteBishops := bbWithOnes [c1, f1]
  let blackBishops := bbWithOnes [c8, f8]
  let whitePawns := bbWithOnes ((List.finRange 8).map fun f => ⟨f, 1⟩)
  let blackPawns := bbWithOnes ((List.finRange 8).map fun f => ⟨f, 6⟩)
  let whitePieces := whiteKings ||| whiteQueens ||| whiteRooks
    ||| whiteKnights ||| whiteBishops ||| whitePawns
  let blackPieces := blackKings ||| blackQueens ||| blackRooks
    ||| blackKnights ||| blackBishops ||| blackPawns
  { whiteKings, blackKings, allKings := whiteKings ||| blackKings
    whiteQueens, blackQueens, allQueens := whiteQueens ||| blackQueens
    whiteRooks, blackRooks, allRooks := whiteRooks ||| blackRooks
    whiteKnights, blackKnights, allKnights := whiteKnights ||| blackKnights
    whiteBishops, blackBishops, allBishops := whiteBishops ||| blackBishops
    whitePawns, blackPawns, allPawns := whitePawns ||| blackPawns
    whitePieces, blackPieces, allPieces := whitePieces ||| blackPieces }

/-- The all-empty board (`ChessBoard::clear`). -/
def ChessBoard.empty : ChessBoard :=
  ⟨0, 0, 0, 0, 0, 0, 0, 0, 0, 0, 0, 0, 0, 0, 0, 0, 0, 0, 0, 0, 0⟩

/-- `ChessBoard::full_occupancy`. -/
def ChessBoard.fullOccupancy (b : ChessBoard) : Bitboard := b.allPieces

/-- `ChessBoard::get_occupancy_for_color`. -/
def ChessBoard.getOccupancyForColor (b : ChessBoard) : Color → Bitboard
  | .black => b.blackPieces
  | .white => b.whitePieces

def ChessBoard.whiteOccupancy (b : ChessBoard) : Bitboard := b.whitePieces
def ChessBoard.blackOccupancy (b : ChessBoard) : Bitboard := b.blackPieces

/-- `ChessBoard::get_bitboard`. -/
def ChessBoard.getBitboard (b : ChessBoard) : Color → PieceType → Bitboard
  | .black, .pawn => b.blackPawns
  | .black, .knight => b.blackKnights
  | .black, .bishop => b.blackBishops
  | .black, .rook => b.blackRooks
  | .black, .queen => b.blackQueens
  | .black, .king => b.blackKings
  | .white, .pawn => b.whitePawns
  | .white, .knight => b.whiteKnights
  | .white, .bishop => b.whiteBishops
  | .white, .rook => b.whiteRooks
  | .white, .queen => b.whiteQueens
  | .white, .king => b.whiteKings

/-- `ChessBoard::get_color_of_pos` (white tested first, as in the source). -/
def ChessBoard.getColorOfPos (b : ChessBoard) (pos : Position) : Option Color :=
  if b.whitePieces &&& bbOne pos ≠ 0 then some .white
  else if b.blackPieces &&& bbOne pos ≠ 0 then some .black
  else none

/-- `ChessBoard::get_kind_of_pos` (kinds tested in source order). -/
def ChessBoard.getKindOfPos (b : ChessBoard) (pos : Position) : Option PieceType :=
  if b.allKings &&& bbOne pos ≠ 0 then some .king
  else if b.allQueens &&& bbOne pos ≠ 0 then some .queen
  else if b.allRooks &&& bbOne pos ≠ 0 then some .rook
  else if b.allKnights &&& bbOne pos ≠ 0 then some .knight
  else if b.allBishops &&& bbOne pos ≠ 0 then some .bishop
  else if b.allPawns &&& bbOne pos ≠ 0 then some .pawn
  else none

/-- `ChessBoard::get_piece`. -/
def ChessBoard.getPiece (b : ChessBoard) (pos : Position) : Option Piece := do
  let color ← b.getColorOfPos pos
  let kind ← b.getKindOfPos pos
  pure ⟨color, kind⟩

/-- `ChessBoard::has_piece_at`. -/
def ChessBoard.hasPieceAt (b : ChessBoard) (pos : Position) : Bool :=
  (b.getColorOfPos pos).isSome

/-- `ChessBoard::has_piece_of_color_at`. -/
def ChessBoard.hasPieceOfColorAt (b : ChessBoard) (color : Color) (pos : Position) : Bool :=
  match color with
  | .black => b.blackPieces &&& bbOne pos ≠ 0
  | .white => b.whitePieces &&& bbOne pos ≠ 0

/-- `ChessBoard::remove_known_piece`: clear the square from the six affected
bitboards. -/
def ChessBoard.removeKnownPiece (b : ChessBoard) (pos : Position)
    (color : Color) (kind : PieceType) : ChessBoard :=
  let m := bbNot (bbOne pos)
  let b := { b with allPieces := b.allPieces &&& m }
  let b := match color with
    | .black => { b with blackPieces := b.blackPieces &&& m }
    | .white => { b with whitePieces := b.whitePieces &&& m }
  match color, kind with
  | .black, .pawn => { b with blackPawns := b.blackPawns &&& m, allPawns := b.allPawns &&& m }
  | .black, .knight =>
    { b with blackKnights := b.blackKnights &&& m, allKnights := b.allKnights &&& m }
  | .black, .bishop =>
    { b with blackBishops := b.blackBishops &&& m, allBishops := b.allBishops &&& m }
  | .black, .rook => { b with blackRooks := b.blackRooks &&& m, allRooks := b.allRooks &&& m }
  | .black, .queen =>
    { b with blackQueens := b.blackQueens &&& m, allQueens := b.allQueens &&& m }
  | .black, .king => { b with blackKings := b.blackKings &&& m, allKings := b.allKings &&& m }
  | .white, .pawn => { b with whitePawns := b.whitePawns &&& m, allPawns := b.allPawns &&& m }
  | .white, .knight =>
    { b with whiteKnights := b.whiteKnights &&& m, allKnights := b.allKnights &&& m }
  | .white, .bishop =>
    { b with whiteBishops := b.whiteBishops &&& m, allBishops := b.allBishops &&& m }
  | .white, .rook => { b with whiteRooks := b.whiteRooks &&& m, allRooks := b.allRooks &&& m }
  | .white, .queen =>
    { b with whiteQueens := b.whiteQueens &&& m, allQueens := b.allQueens &&& m }
  | .white, .king => { b with whiteKings := b.whiteKings &&& m, allKings := b.allKings &&& m }

/-- `ChessBoard::take_piece`.  The source panics when color and kind lookups
disagree (one `Some`, one `None`); that panic is the outer `none`. -/
def ChessBoard.takePiece (b : ChessBoard) (pos : Position) :
    Option (Option Piece × ChessBoard) :=
  match b.getColorOfPos pos, b.getKindOfPos pos with
  | none, none => some (none, b)
  | some color, some kind => some (some ⟨color, kind⟩, b.removeKnownPiece pos color kind)
  | _, _ => none

/-- `ChessBoard::set_piece`: take whatever is on the square, then OR the new
piece into the affected bitboards.  `none` is the `take_piece` panic. -/
def ChessBoard.setPiece (b : ChessBoard) (pos : Position) (piece : Piece) :
    Option (Option Piece × ChessBoard) := do
  let (taken, b) ← b.takePiece pos
  let one := bbOne pos
  let b := { b with allPieces := b.allPieces ||| one }
  let b := match piece.kind with
    | .pawn => { b with allPawns := b.allPawns ||| one }
    | .knight => { b with allKnights := b.allKnights ||| one }
    | .bishop => { b with allBishops := b.allBishops ||| one }
    | .rook => { b with allRooks := b.allRooks ||| one }
    | .queen => { b with allQueens := b.allQueens ||| one }
    | .king => { b with allKings := b.allKings ||| one }
  let b := match piece.color with
    | .black =>
      let b := { b with blackPieces := b.blackPieces ||| one }
      match piece.kind with
      | .pawn => { b with blackPawns := b.blackPawns ||| one }
      | .knight => { b with blackKnights := b.blackKnights ||| one }
      | .bishop => { b with blackBishops := b.blackBishops ||| one }
      | .rook => { b with blackRooks := b.blackRooks ||| one }
      | .queen => { b with blackQueens := b.blackQueens ||| one }
      | .king => { b with blackKings := b.blackKings ||| one }
    | .white =>
      let b := { b with whitePieces := b.whitePieces ||| one }
      match piece.kind with
      | .pawn => { b with whitePawns := b.whitePawns ||| one }
      | .knight => { b with whiteKnights := b.whiteKnights ||| one }
      | .bishop => { b with whiteBishops := b.whiteBishops ||| one }
      | .rook => { b with whiteRooks := b.whiteRooks ||| one }
      | .queen => { b with whiteQueens := b.whiteQueens ||| one }
      | .king => { b with whiteKings := b.whiteKings ||| one }
  pure (taken, b)

/-- `KNIGHT_OFFSETS` from `src/chess_move.rs`. -/
def knightOffsets : List (Int × Int) :=
  [(2, 1), (2, -1), (1, 2), (-1, 2), (-2, 1), (-2, -1), (1, -2), (-1, -2)]

/-- `KING_OFFSETS` from `src/chess_move.rs`. -/
def kingOffsets : List (Int × Int) :=
  [(0, 1), (1, 1), (1, 0), (1, -1), (0, -1), (-1, -1), (-1, 0), (-1, 1)]

/-- Modelled from the spec: `KNIGHT_ATTACKS[sq]`, the up to 8 L-jumps
(spec 4.B). -/
def knightAttacks (p : Position) : Bitboard :=
  knightOffsets.foldl
    (fun b d => match p.step d.1 d.2 with | some q => b ||| bbOne q | none => b) 0

/-- Modelled from the spec: `KING_ATTACKS[sq]`, the up to 8 neighbours
(spec 4.B). -/
def kingAttacks (p : Position) : Bitboard :=
  kingOffsets.foldl
    (fun b d => match p.step d.1 d.2 with | some q => b ||| bbOne q | none => b) 0

/-- Modelled from the spec: one sliding ray — step outward, set each bit,
stop on (and include) the first blocker (spec 4.B). -/
def rayGo (occ : Bitboard) (df dr : Int) : Position → Nat → Bitboard
  | _, 0 => 0
  | p, fuel + 1 =>
    match p.step df dr with
    | none => 0
    | some q => if occ.testBit q.idx then bbOne q else bbOne q ||| rayGo occ df dr q fuel

/-- Modelled from the spec: `bishop_attacks(sq, occ)`, the four diagonal
rays with the first-blocker-included rule. -/
def bishopAttacks (p : Position) (occ : Bitboard) : Bitboard :=
  rayGo occ 1 1 p 8 ||| rayGo occ 1 (-1) p 8 ||| rayGo occ (-1) 1 p 8
    ||| rayGo occ (-1) (-1) p 8

/-- Modelled from the spec: `rook_attacks(sq, occ)`, the four orthogonal
rays with the first-blocker-included rule. -/
def rookAttacks (p : Position) (occ : Bitboard) : Bitboard :=
  rayGo occ 1 0 p 8 ||| rayGo occ (-1) 0 p 8 ||| rayGo occ 0 1 p 8
    ||| rayGo occ 0 (-1) p 8

/-- Modelled from the spec: `Bitboard::knight_targets(sq, occ)` — knight
attacks minus the given occupancy. -/
def knightTargets (p : Position) (occ : Bitboard) : Bitboard :=
  knightAttacks p &&& bbNot occ

/-- Modelled from the spec: `Bitboard::white_king_targets` — king attacks
minus own (White) occupancy. -/
def whiteKingTargets (p : Position) (whiteOcc : Bitboard) : Bitboard :=
  kingAttacks p &&& bbNot whiteOcc

/-- Modelled from the spec: `Bitboard::black_king_targets`. -/
def blackKingTargets (p : Position) (blackOcc : Bitboard) : Bitboard :=
  kingAttacks p &&& bbNot blackOcc

/-- Modelled from the spec: `Bitboard::white_bishop_targets` — sliding
attacks over the full occupancy, minus White's own pieces. -/
def whiteBishopTargets (p : Position) (whiteOcc blackOcc : Bitboard) : Bitboard :=
  bishopAttacks p (whiteOcc ||| blackOcc) &&& bbNot whiteOcc

/-- Modelled from the spec: `Bitboard::black_bishop_targets`. -/
def blackBishopTargets (p : Position) (whiteOcc blackOcc : Bitboard) : Bitboard :=
  bishopAttacks p (whiteOcc ||| blackOcc) &&& bbNot blackOcc

/-- Modelled from the spec: `Bitboard::white_rook_targets`. -/
def whiteRookTargets (p : Position) (whiteOcc blackOcc : Bitboard) : Bitboard :=
  rookAttacks p (whiteOcc ||| blackOcc) &&& bbNot whiteOcc

/-- Modelled from the spec: `Bitboard::black_rook_targets`. -/
def blackRookTargets (p : Position) (whiteOcc blackOcc : Bitboard) : Bitboard :=
  rookAttacks p (whiteOcc ||| blackOcc) &&& bbNot blackOcc

/-- Modelled from the spec: `Bitboard::white_queen_targets` — union of the
bishop and rook targets. -/
def whiteQueenTargets (p : Position) (whiteOcc blackOcc : Bitboard) : Bitboard :=
  whiteBishopTargets p whiteOcc blackOcc ||| whiteRookTargets p whiteOcc blackOcc

/-- Modelled from the spec: `Bitboard::black_queen_targets`. -/
def blackQueenTargets (p : Position) (whiteOcc blackOcc : Bitboard) : Bitboard :=
  blackBishopTargets p whiteOcc blackOcc ||| blackRookTargets p whiteOcc blackOcc

/-- Modelled from the spec: `Bitboard::white_pawn_targets` — single push to
an empty square, double push from the second rank through two empty squares,
diagonal captures against Black occupancy (spec 4.B). -/
def whitePawnTargets (p : Position) (whiteOcc blackOcc : Bitboard) : Bitboard :=
  let allOcc := whiteOcc ||| blackOcc
  let single := match p.up with
    | some u => if allOcc.testBit u.idx then 0 else bbOne u
    | none => 0
  let double :=
    if p.rank = (1 : Fin 8) then
      match p.step 0 1, p.step 0 2 with
      | some u, some uu =>
        if ¬ allOcc.testBit u.idx ∧ ¬ allOcc.testBit uu.idx then bbOne uu else 0
      | _, _ => 0
    else 0
  let capL := match p.upLeft with
    | some q => if blackOcc.testBit q.idx then bbOne q else 0
    | none => 0
  let capR := match p.upRight with
    | some q => if blackOcc.testBit q.idx then bbOne q else 0
    | none => 0
  single ||| double ||| capL ||| capR

/-- Modelled from the spec: `Bitboard::black_pawn_targets` (mirror of the
White version: pushes go down, double push from the seventh rank, captures
against White occupancy). -/
def blackPawnTargets (p : Position) (whiteOcc blackOcc : Bitboard) : Bitboard :=
  let allOcc := whiteOcc ||| blackOcc
  let single := match p.down with
    | some u => if allOcc.testBit u.idx then 0 else bbOne u
    | none => 0
  let double :=
    if p.rank = (6 : Fin 8) then
      match p.step 0 (-1), p.step 0 (-2) with
      | some u, some uu =>
        if ¬ allOcc.testBit u.idx ∧ ¬ allOcc.testBit uu.idx then bbOne uu else 0
      | _, _ => 0
    else 0
  let capL := match p.downLeft with
    | some q => if whiteOcc.testBit q.idx then bbOne q else 0
    | none => 0
  let capR := match p.downRight with
    | some q => if whiteOcc.testBit q.idx then bbOne q else 0
    | none => 0
  single ||| double ||| capL ||| capR

/-- `MoveManager` from `src/chess_move.rs` (the legal-move `HashSet` is a
list; only membership and emptiness are ever used). -/
structure MoveManager where
  boardHistory : List ChessBoard
  moveHistory : List ChessMove
  legalMoves : List ChessMove
  whiteEnPassantTarget : Option Position
  blackEnPassantTarget : Option Position
  castlingRights : CastlingRights
  halfMoves : Nat
  fullMoves : Nat
deriving DecidableEq, Repr

/-- `MoveManager::default`. -/
def MoveManager.default : MoveManager :=
  ⟨[], [], [], none, none, CastlingRights.default, 0, 1⟩

/-- `MoveManager::is_legal`. -/
def MoveManager.isLegal (mm : MoveManager) (chessMove : ChessMove) : Bool :=
  mm.legalMoves.contains chessMove

/-- `MoveManager::dry_run_move`: apply the move shape to the board and
return the captured piece.  `none` is a panic (an `unwrap` on an empty
square). -/
def dryRunMove (board : ChessBoard) (player : Color) (chessMove : ChessMove) :
    Option (ChessBoard × Option Piece) :=
  match chessMove with
  | .regular f t => do
    let (pc, b1) ← board.takePiece f
    let piece ← pc
    let (taken, b2) ← b1.setPiece t piece
    pure (b2, taken)
  | .enPassant f t _ takenIndex => do
    let (pc, b1) ← board.takePiece f
    let piece ← pc
    let (_, b2) ← b1.setPiece t piece
    let (tk, b3) ← b2.takePiece takenIndex
    let taken ← tk
    pure (b3, some taken)
  | .promotion f t promo => do
    let (pc, b1) ← board.takePiece f
    let _ ← pc
    let (taken, b2) ← b1.setPiece t (promo.createPiece player)
    pure (b2, taken)
  | .castle rookFrom rookTo kingFrom kingTo => do
    let (rk, b1) ← board.takePiece rookFrom
    let rook ← rk
    let (_, b2) ← b1.setPiece rookTo rook
    let (kg, b3) ← b2.takePiece kingFrom
    let king ← kg
    let (_, b4) ← b3.setPiece kingTo king
    pure (b4, none)

/-- `MoveManager::update_castling_rights`.  The `if` chain is the source's,
verbatim: `E1`, `A1`, `A8` (clearing *white kingside*), `E8`, `A8` again
(clearing black queenside), `H8` — and no test for `H1` at all. -/
def MoveManager.updateCastlingRights (mm : MoveManager) (from_ : Position) : MoveManager :=
  let cr := mm.castlingRights
  let cr := if from_ = e1 then { cr with whiteKingside := false, whiteQueenside := false } else cr
  let cr := if from_ = a1 then { cr with whiteQueenside := false } else cr
  let cr := if from_ = a8 then { cr with whiteKingside := false } else cr
  let cr := if from_ = e8 then { cr with blackKingside := false, blackQueenside := false } else cr
  let cr := if from_ = a8 then { cr with blackQueenside := false } else cr
  let cr := if from_ = h8 then { cr with blackKingside := false } else cr
  { mm with castlingRights := cr }

/-- `MoveManager::make_move`: pawn/en-passant bookkeeping and the
castling-rights update happen only for `Regular` moves, then the move is
applied, the halfmove clock updated, the mover's stale en-passant target
cleared, and the new board pushed onto the history. -/
def MoveManager.makeMove (mm : MoveManager) (board : ChessBoard) (player : Color)
    (chessMove : ChessMove) : Option (MoveManager × ChessBoard × Option Piece) := do
  let (movedPawn, mm) ←
    match chessMove with
    | .regular f t =>
      (match board.getPiece f with
        | some ⟨color, PieceType.pawn⟩ => do
          let mm ←
            if f.file = t.file ∧ f.manhattanDistanceTo t = 2 then
              match color with
              | .black => do
                let r ← rankDown f.rank
                pure { mm with whiteEnPassantTarget := some ⟨f.file, r⟩ }
              | .white => do
                let r ← rankUp f.rank
                pure { mm with blackEnPassantTarget := some ⟨f.file, r⟩ }
            else pure mm
          pure (true, mm.updateCastlingRights f)
        | _ => pure (false, mm.updateCastlingRights f))
    | _ => pure (false, mm)
  let (board, takenPiece) ← dryRunMove board player chessMove
  let mm :=
    if movedPawn || chessMove.isEnPassant || chessMove.isPromotion || takenPiece.isSome then
      { mm with halfMoves := 0 }
    else
      { mm with halfMoves := mm.halfMoves + 1 }
  let mm :=
    match player with
    | .black => { mm with fullMoves := mm.fullMoves + 1, blackEnPassantTarget := none }
    | .white => { mm with whiteEnPassantTarget := none }
  let mm := { mm with boardHistory := mm.boardHistory ++ [board] }
  pure (mm, board, takenPiece)

/-- `MoveManager::get_attackers`: for each piece kind, the squares from
which a piece of the attacker color could capture on `target`.  Note the
source's color asymmetry for the king case (White attackers use Black's
occupancy and vice versa). -/
def getAttackers (board : ChessBoard) (target : Position) (attackerColor : Color) : Bitboard :=
  match attackerColor with
  | .black =>
    let pawnMask :=
      (match target.upLeft with | some q => bbOne q | none => 0)
        ||| (match target.upRight with | some q => bbOne q | none => 0)
    (pawnMask &&& board.blackPawns)
      ||| (knightTargets target 0 &&& board.blackKnights)
      ||| (whiteBishopTargets target board.whiteOccupancy board.blackOccupancy
            &&& board.blackBishops)
      ||| (whiteRookTargets target board.whiteOccupancy board.blackOccupancy
            &&& board.blackRooks)
      ||| (whiteQueenTargets target board.whiteOccupancy board.blackOccupancy
            &&& board.blackQueens)
      ||| (whiteKingTargets target board.whiteOccupancy &&& board.blackKings)
  | .white =>
    let pawnMask :=
      (match target.downLeft with | some q => bbOne q | none => 0)
        ||| (match target.downRight with | some q => bbOne q | none => 0)
    (pawnMask &&& board.whitePawns)
      ||| (knightTargets target 0 &&& board.whiteKnights)
      ||| (blackBishopTargets target board.whiteOccupancy board.blackOccupancy
            &&& board.whiteBishops)
      ||| (blackRookTargets target board.whiteOccupancy board.blackOccupancy
            &&& board.whiteRooks)
      ||| (blackQueenTargets target board.whiteOccupancy board.blackOccupancy
            &&& board.whiteQueens)
      ||| (blackKingTargets target board.blackOccupancy &&& board.whiteKings)

/-- `MoveManager::is_under_attack`. -/
def isUnderAttack (board : ChessBoard) (target : Position) (attackerColor : Color) : Bool :=
  getAttackers board target attackerColor != 0

/-- `MoveManager::is_in_check`: find the king (`none` is the source's
`unwrap` panic when a side has no king) and test for attackers. -/
def isInCheck (board : ChessBoard) (player : Color) : Option Bool :=
  match player with
  | .black => do
    let blackKing ← bbFirstPosition (board.getBitboard .black .king)
    pure (getAttackers board blackKing .white != 0)
  | .white => do
    let whiteKing ← bbFirstPosition (board.getBitboard .white .king)
    pure (getAttackers board whiteKing .black != 0)

/-- `MoveManager::evaluate_white_castle`. -/
def MoveManager.evaluateWhiteCastle (mm : MoveManager) (board : ChessBoard) :
    Option (List ChessMove) :=
  let short :=
    if mm.castlingRights.whiteKingside
        ∧ ¬ board.hasPieceAt f1 ∧ ¬ board.hasPieceAt g1
        ∧ ¬ isUnderAttack board f1 .black ∧ ¬ isUnderAttack board g1 .black then
      [ChessMove.castle h1 f1 e1 g1]
    else []
  let long :=
    if mm.castlingRights.whiteQueenside
        ∧ ¬ board.hasPieceAt d1 ∧ ¬ board.hasPieceAt c1 ∧ ¬ board.hasPieceAt b1
        ∧ ¬ isUnderAttack board d1 .black ∧ ¬ isUnderAttack board c1 .black
        ∧ ¬ isUnderAttack board b1 .black then
      [ChessMove.castle a1 d1 e1 c1]
    else []
  some (short ++ long)

/-- `MoveManager::evaluate_black_castle`. -/
def MoveManager.evaluateBlackCastle (mm : MoveManager) (board : ChessBoard) :
    Option (List ChessMove) :=
  let short :=
    if mm.castlingRights.blackKingside
        ∧ ¬ board.hasPieceAt f8 ∧ ¬ board.hasPieceAt g8
        ∧ ¬ isUnderAttack board f8 .white ∧ ¬ isUnderAttack board g8 .white then
      [ChessMove.castle h8 f8 e8 g8]
    else []
  let long :=
    if mm.castlingRights.blackQueenside
        ∧ ¬ board.hasPieceAt d8 ∧ ¬ board.hasPieceAt c8 ∧ ¬ board.hasPieceAt b8
        ∧ ¬ isUnderAttack board d8 .white ∧ ¬ isUnderAttack board c8 .white
        ∧ ¬ isUnderAttack board b8 .white then
      [ChessMove.castle a8 d8 e8 c8]
    else []
  some (short ++ long)

/-- `MoveManager::evaluate_legal_pawn_moves_from` is split by color below;
this is the White branch (`evaluate_legal_white_pawn_moves_from`). -/
def MoveManager.evaluateLegalWhitePawnMovesFrom (mm : MoveManager) (board : ChessBoard)
    (from_ : Position) : List ChessMove :=
  if from_.rank = (6 : Fin 8) then
    -- from Rank::Seven it is only possible to promote
    (match from_.up with
      | some up =>
        if ¬ board.hasPieceAt up then ChessMove.promotionMoves from_ up else []
      | none => [])  -- unreachable: rank is 7 here, the source unwraps
      ++ (match from_.upLeft with
        | some ul =>
          if board.hasPieceOfColorAt .black ul then ChessMove.promotionMoves from_ ul else []
        | none => [])
      ++ (match from_.upRight with
        | some ur =>
          if board.hasPieceOfColorAt .black ur then ChessMove.promotionMoves from_ ur else []
        | none => [])
  else
    let targets := whitePawnTargets from_ board.whiteOccupancy board.blackOccupancy
    let regulars := (bbPositions targets).map fun to_ => ChessMove.regular from_ to_
    let ep :=
      match mm.whiteEnPassantTarget with
      | some t =>
        if from_.rank = (4 : Fin 8) ∧ (from_.upLeft = some t ∨ from_.upRight = some t) then
          [ChessMove.enPassant from_ t ⟨t.file, 6⟩ ⟨t.file, 4⟩]
        else []
      | none => []
    regulars ++ ep

/-- `MoveManager::evaluate_legal_black_pawn_moves_from`. -/
def MoveManager.evaluateLegalBlackPawnMovesFrom (mm : MoveManager) (board : ChessBoard)
    (from_ : Position) : List ChessMove :=
  if from_.rank = (1 : Fin 8) then
    -- from Rank::Two it is only possible to promote
    (match from_.down with
      | some dn =>
        if ¬ board.hasPieceAt dn then ChessMove.promotionMoves from_ dn else []
      | none => [])  -- unreachable: rank is 2 here, the source unwraps
      ++ (match from_.downLeft with
        | some dl =>
          if board.hasPieceOfColorAt .white dl then ChessMove.promotionMoves from_ dl else []
        | none => [])
      ++ (match from_.downRight with
        | some dr =>
          if board.hasPieceOfColorAt .white dr then ChessMove.promotionMoves from_ dr else []
        | none => [])
  else
    let targets := blackPawnTargets from_ board.whiteOccupancy board.blackOccupancy
    let regulars := (bbPositions targets).map fun to_ => ChessMove.regular from_ to_
    let ep :=
      match mm.blackEnPassantTarget with
      | some t =>
        if from_.rank = (3 : Fin 8) ∧ (from_.downLeft = some t ∨ from_.downRight = some t) then
          [ChessMove.enPassant from_ t ⟨t.file, 1⟩ ⟨t.file, 3⟩]
        else []
      | none => []
    regulars ++ ep

/-- `MoveManager::evaluate_legal_pawn_moves_from`: a pawn on rank 1 or
rank 8 silently yields no moves. -/
def MoveManager.evaluateLegalPawnMovesFrom (mm : MoveManager) (board : ChessBoard)
    (from_ : Position) (player : Color) : List ChessMove :=
  if from_.rank = (0 : Fin 8) ∨ from_.rank = (7 : Fin 8) then
    []
  else
    match player with
    | .black => mm.evaluateLegalBlackPawnMovesFrom board from_
    | .white => mm.evaluateLegalWhitePawnMovesFrom board from_

/-- `MoveManager::evaluate_legal_knight_moves_from`. -/
def MoveManager.evaluateLegalKnightMovesFrom (mm : MoveManager) (board : ChessBoard)
    (from_ : Position) (player : Color) : List ChessMove :=
  let occ := match player with
    | Color.black => board.blackOccupancy
    | Color.white => board.whiteOccupancy
  let targets := knightTargets from_ occ &&& bbNot (board.getOccupancyForColor player)
  (bbPositions targets).map fun to_ => ChessMove.regular from_ to_

/-- `MoveManager::evaluate_legal_bishop_moves_from`. -/
def MoveManager.evaluateLegalBishopMovesFrom (mm : MoveManager) (board : ChessBoard)
    (from_ : Position) (player : Color) : List ChessMove :=
  let targets := match player with
    | Color.black => blackBishopTargets from_ board.whiteOccupancy board.blackOccupancy
    | Color.white => whiteBishopTargets from_ board.whiteOccupancy board.blackOccupancy
  (bbPositions targets).map fun to_ => ChessMove.regular from_ to_

/-- `MoveManager::evaluate_legal_rook_moves_from`. -/
def MoveManager.evaluateLegalRookMovesFrom (mm : MoveManager) (board : ChessBoard)
    (from_ : Position) (player : Color) : List ChessMove :=
  let targets := match player with
    | Color.black => blackRookTargets from_ board.whiteOccupancy board.blackOccupancy
    | Color.white => whiteRookTargets from_ board.whiteOccupancy board.blackOccupancy
  (bbPositions targets).map fun to_ => ChessMove.regular from_ to_

/-- `MoveManager::evaluate_legal_queen_moves_from`. -/
def MoveManager.evaluateLegalQueenMovesFrom (mm : MoveManager) (board : ChessBoard)
    (from_ : Position) (player : Color) : List ChessMove :=
  let targets := match player with
    | Color.black => blackQueenTargets from_ board.whiteOccupancy board.blackOccupancy
    | Color.white => whiteQueenTargets from_ board.whiteOccupancy board.blackOccupancy
  (bbPositions targets).map fun to_ => ChessMove.regular from_ to_

/-- `MoveManager::evaluate_legal_king_moves_from`: regular king steps, plus
castling candidates when the king sits on its home square. -/
def MoveManager.evaluateLegalKingMovesFrom (mm : MoveManager) (board : ChessBoard)
    (from_ : Position) (player : Color) : List ChessMove :=
  let targets := match player with
    | Color.black => blackKingTargets from_ board.blackOccupancy
    | Color.white => whiteKingTargets from_ board.whiteOccupancy
  let regulars := (bbPositions targets).map fun to_ => ChessMove.regular from_ to_
  let castles :=
    if player = Color.black ∧ from_ = e8 then
      (mm.evaluateBlackCastle board).getD []
    else if player = Color.white ∧ from_ = e1 then
      (mm.evaluateWhiteCastle board).getD []
    else []
  regulars ++ castles

/-- `MoveManager::evaluate_legal_moves_from`: dispatch on the piece at
`from`; an empty square or an enemy piece yields no moves. -/
def MoveManager.evaluateLegalMovesFrom (mm : MoveManager) (board : ChessBoard)
    (from_ : Position) (player : Color) : List ChessMove :=
  match board.getPiece from_ with
  | some piece =>
    if piece.color = player then
      match piece.kind with
      | .pawn => mm.evaluateLegalPawnMovesFrom board from_ player
      | .knight => mm.evaluateLegalKnightMovesFrom board from_ player
      | .bishop => mm.evaluateLegalBishopMovesFrom board from_ player
      | .rook => mm.evaluateLegalRookMovesFrom board from_ player
      | .queen => mm.evaluateLegalQueenMovesFrom board from_ player
      | .king => mm.evaluateLegalKingMovesFrom board from_ player
    else []
  | none => []

/-- The self-check filter of `MoveManager::evaluate_legal_moves`: dry-run
each candidate on a copy and drop it if the mover is then in check.  `none`
propagates a panic from the dry run or the check test. -/
def filterActualLegal (board : ChessBoard) (player : Color) :
    List ChessMove → Option (List ChessMove)
  | [] => some []
  | m :: rest => do
    let (boardClone, _) ← dryRunMove board player m
    let inCheck ← isInCheck boardClone player
    let tail ← filterActualLegal board player rest
    pure (if inCheck then tail else m :: tail)

/-- `MoveManager::evaluate_legal_moves`: generate pseudo-legal candidates
from every occupied square of the mover, then keep those that do not leave
the mover in check. -/
def MoveManager.evaluateLegalMoves (mm : MoveManager) (board : ChessBoard)
    (player : Color) : Option MoveManager := do
  let legalMoves := (bbPositions (board.getOccupancyForColor player)).flatMap
    fun pos => mm.evaluateLegalMovesFrom board pos player
  let actual ← filterActualLegal board player legalMoves
  pure { mm with legalMoves := actual }

/-- `GameOver` from `src/game.rs`. -/
inductive GameOver where
  | winner (c : Color)
  | draw
deriving DecidableEq, Repr

/-- `Game` from `src/game.rs`. -/
structure Game where
  currentPlayer : Color
  moveManager : MoveManager
  board : ChessBoard
deriving DecidableEq, Repr

/-- `Game::is_over`. -/
def Game.isOver (g : Game) : Bool := g.moveManager.legalMoves.isEmpty

/-- `Game::game_result`: `some none` is "game not over"; the outer `none`
is the panic inside `is_in_check` when the side to move has no king. -/
def Game.gameResult (g : Game) : Option (Option GameOver) :=
  if g.isOver then do
    let inCheck ← isInCheck g.board g.currentPlayer
    pure (some (if inCheck then GameOver.winner g.currentPlayer.opponent else GameOver.draw))
  else
    some none

/-- `Game::make_move`: reject when the game is over or the move is not in
the current legal set, otherwise apply, toggle the player and regenerate the
legal set.  The Rust error paths return before any mutation. -/
def Game.makeMove (g : Game) (chessMove : ChessMove) : Option (Except String Game) :=
  if g.isOver then
    some (.error "game is over")
  else if ¬ g.moveManager.isLegal chessMove then
    some (.error "illegal move")
  else do
    let (mm, board, _) ← g.moveManager.makeMove g.board g.currentPlayer chessMove
    let currentPlayer := g.currentPlayer.opponent
    let mm ← mm.evaluateLegalMoves board currentPlayer
    pure (.ok ⟨currentPlayer, mm, board⟩)

/-- `Game::default`: the starting position with White's legal moves
evaluated. -/
def Game.default : Option Game := do
  let board := ChessBoard.new
  let mm ← MoveManager.default.evaluateLegalMoves board .white
  pure ⟨.white, mm, board⟩

/-- Modelled from the spec: lowercase algebraic file letter. -/
def fileChar (f : Fin 8) : Char := Char.ofNat (97 + f.val)

/-- Modelled from the spec: rank digit character. -/
def rankChar (r : Fin 8) : Char := Char.ofNat (49 + r.val)

/-- Modelled from the spec: `Position`'s `Display`, lowercase algebraic
(`e3`). -/
def posToString (p : Position) : String :=
  String.mk [fileChar p.file, rankChar p.rank]

/-- Modelled from the spec: parse a file letter, case-insensitive. -/
def fileFromChar (c : Char) : Option (Fin 8) :=
  if h : 97 ≤ c.toNat ∧ c.toNat ≤ 104 then some ⟨c.toNat - 97, by omega⟩
  else if h : 65 ≤ c.toNat ∧ c.toNat ≤ 72 then some ⟨c.toNat - 65, by omega⟩
  else none

/-- Modelled from the spec: parse a rank digit `1`..`8`. -/
def rankFromChar (c : Char) : Option (Fin 8) :=
  if h : 49 ≤ c.toNat ∧ c.toNat ≤ 56 then some ⟨c.toNat - 49, by omega⟩ else none

/-- Modelled from the spec: `Position::from_str`, exactly two characters. -/
def positionFromStr (s : String) : Option Position :=
  match s.data with
  | [fc, rc] => do
    let f ← fileFromChar fc
    let r ← rankFromChar rc
    pure ⟨f, r⟩
  | _ => none

/-- The en-passant field handling of `Fen::from_str` (`src/fen.rs` lines
85–101), returning `(black_en_passant_target, white_en_passant_target)` as
the source tuple does.  A square on `Rank::Seven` becomes the white target
and one on `Rank::Two` the black target; every other rank is rejected. -/
def parseEnPassantField (s : String) :
    Except String (Option Position × Option Position) :=
  if s = "-" then .ok (none, none)
  else
    match positionFromStr s with
    | some pos =>
      if pos.rank = (6 : Fin 8) then .ok (none, some pos)
      else if pos.rank = (1 : Fin 8) then .ok (some pos, none)
      else .error "invalid en passant target"
    | none => .error "invalid en passant target"

/-- Rust's `u32::from_str`: optional leading `+`, at least one digit, value
within the u32 range. -/
def parseU32 (s : String) : Option Nat :=
  let cs := match s.data with
    | '+' :: rest => rest
    | cs => cs
  if cs.isEmpty then none
  else if cs.all Char.isDigit then
    let v := cs.foldl (fun a c => a * 10 + (c.toNat - 48)) 0
    if v < 2 ^ 32 then some v else none
  else none

/-- Rust `str::split(sep)` for a one-character separator (consecutive
separators yield empty fields, as in Rust). -/
def splitChar (cs : List Char) (sep : Char) : List (List Char) :=
  match cs with
  | [] => [[]]
  | c :: rest =>
    match splitChar rest sep with
    | [] => [[c]]
    | g :: gs => if c = sep then [] :: g :: gs else (c :: g) :: gs

/-- `str::split` returning `String` fields. -/
def splitString (s : String) (sep : Char) : List String :=
  (splitChar s.data sep).map fun cs => String.mk cs

/-- Rust `char::to_digit(10)`. -/
def charToDigit (c : Char) : Option Nat :=
  if c.isDigit then some (c.toNat - 48) else none

/-- `add_file_offset` from `src/fen.rs`. -/
def addFileOffset (file : Fin 8) (offset : Int) : Option (Fin 8) :=
  let v := (file.val : Int) + offset
  if h : 0 ≤ v ∧ v < 8 then some ⟨v.toNat, by omega⟩ else none

/-- Placing one FEN piece character onto the accumulating bitboards, the
12-way match of `board_from_fen_part_0`. -/
def fenPlacePiece (b : ChessBoard) (pos : Position) (c : Char) :
    Except String ChessBoard :=
  let bb := bbOne pos
  match c with
  | 'p' => .ok ({ b with
      blackPawns := b.blackPawns ||| bb, allPawns := b.allPawns ||| bb,
      blackPieces := b.blackPieces ||| bb, allPieces := b.allPieces ||| bb })
  | 'n' => .ok ({ b with
      blackKnights := b.blackKnights ||| bb, allKnights := b.allKnights ||| bb,
      blackPieces := b.blackPieces ||| bb, allPieces := b.allPieces ||| bb })
  | 'b' => .ok ({ b with
      blackBishops := b.blackBishops ||| bb, allBishops := b.allBishops ||| bb,
      blackPieces := b.blackPieces ||| bb, allPieces := b.allPieces ||| bb })
  | 'r' => .ok ({ b with
      blackRooks := b.blackRooks ||| bb, allRooks := b.allRooks ||| bb,
      blackPieces := b.blackPieces ||| bb, allPieces := b.allPieces ||| bb })
  | 'q' => .ok ({ b with
      blackQueens := b.blackQueens ||| bb, allQueens := b.allQueens ||| bb,
      blackPieces := b.blackPieces ||| bb, allPieces := b.allPieces ||| bb })
  | 'k' => .ok ({ b with
      blackKings := b.blackKings ||| bb, allKings := b.allKings ||| bb,
      blackPieces := b.blackPieces ||| bb, allPieces := b.allPieces ||| bb })
  | 'P' => .ok ({ b with
      whitePawns := b.whitePawns ||| bb, allPawns := b.allPawns ||| bb,
      whitePieces := b.whitePieces ||| bb, allPieces := b.allPieces ||| bb })
  | 'N' => .ok ({ b with
      whiteKnights := b.whiteKnights ||| bb, allKnights := b.allKnights ||| bb,
      whitePieces := b.whitePieces ||| bb, allPieces := b.allPieces ||| bb })
  | 'B' => .ok ({ b with
      whiteBishops := b.whiteBishops ||| bb, allBishops := b.allBishops ||| bb,
      whitePieces := b.whitePieces ||| bb, allPieces := b.allPieces ||| bb })
  | 'R' => .ok ({ b with
      whiteRooks := b.whiteRooks ||| bb, allRooks := b.allRooks ||| bb,
      whitePieces := b.whitePieces ||| bb, allPieces := b.allPieces ||| bb })
  | 'Q' => .ok ({ b with
      whiteQueens := b.whiteQueens ||| bb, allQueens := b.allQueens ||| bb,
      whitePieces := b.whitePieces ||| bb, allPieces := b.allPieces ||| bb })
  | 'K' => .ok ({ b with
      whiteKings := b.whiteKings ||| bb, allKings := b.allKings ||| bb,
      whitePieces := b.whitePieces ||| bb, allPieces := b.allPieces ||| bb })
  | _ => .error ("invalid piece char " ++ String.singleton c)

/-- The per-character loop of one FEN rank in `board_from_fen_part_0`:
digits skip files (`continue` when the skip reaches the H file), piece
characters place and advance (except at the H file).  The outer `none` is
the source's `unwrap` panic on `add_file_offset`. -/
def fenRowLoop (board : ChessBoard) (rank : Fin 8) :
    List Char → Fin 8 → Option (Except String ChessBoard)
  | [], _ => some (.ok board)
  | c :: rest, currentFile =>
    let pos : Position := ⟨currentFile, rank⟩
    match charToDigit c with
    | some digit =>
      if digit + currentFile.val = 8 then
        fenRowLoop board rank rest currentFile
      else
        match addFileOffset currentFile (digit : Int) with
        | some f => fenRowLoop board rank rest f
        | none => none
    | none =>
      let nextFile : Fin 8 :=
        if h : currentFile.val + 1 < 8 then ⟨currentFile.val + 1, h⟩
        else currentFile  -- only reached at the H file, where the source does not advance
      match fenPlacePiece board pos c with
      | .ok b2 => fenRowLoop b2 rank rest nextFile
      | .error e => some (.error e)

/-- The rank-sum guard of `board_from_fen_part_0`: digits count as
themselves, every other character as 1; the total must be 8. -/
def fenRowSum (row : String) : Nat :=
  (row.data.map fun c => match charToDigit c with | some d => d | none => 1).sum

/-- The rank loop of `board_from_fen_part_0`: rows are paired with ranks 8
down to 1. -/
def fenRowsLoop (board : ChessBoard) :
    List (String × Fin 8) → Option (Except String ChessBoard)
  | [] => some (.ok board)
  | (row, rank) :: rest =>
    if fenRowSum row ≠ 8 then some (.error "invalid board")
    else
      match fenRowLoop board rank row.data 0 with
      | none => none
      | some (.error e) => some (.error e)
      | some (.ok b2) => fenRowsLoop b2 rest

/-- `board_from_fen_part_0` from `src/fen.rs`: all bitboards start empty,
then eight `/`-separated rank tokens are placed from rank 8 downward. -/
def boardFromFenPart0 (part0 : String) : Option (Except String ChessBoard) :=
  let rows := splitString part0 '/'
  if rows.length ≠ 8 then some (.error "invalid board")
  else fenRowsLoop ChessBoard.empty (rows.zip [7, 6, 5, 4, 3, 2, 1, 0])

/-- `Fen` from `src/fen.rs`. -/
structure Fen where
  board : ChessBoard
  currentPlayer : Color
  castlingRights : CastlingRights
  whiteEnPassantTarget : Option Position
  blackEnPassantTarget : Option Position
  halfmoves : Nat
  fullmoves : Nat
deriving DecidableEq, Repr

/-- `impl FromStr for Fen`: six space-separated fields; only the board
field can panic (outer `none`), every other failure is an error value. -/
def fenFromStr (s : String) : Option (Except String Fen) :=
  match splitString s ' ' with
  | [p0, p1, p2, p3, p4, p5] =>
    match boardFromFenPart0 p0 with
    | none => none
    | some boardRes =>
      some (do
        let board ← boardRes
        let currentPlayer ←
          (match p1 with
            | "w" => .ok Color.white
            | "b" => .ok Color.black
            | _ => .error ("invalid player " ++ p1) : Except String Color)
        let castlingRights ← CastlingRights.fromStr p2
        let (blackEnPassantTarget, whiteEnPassantTarget) ← parseEnPassantField p3
        let halfmoves ←
          (match parseU32 p4 with
            | some v => .ok v
            | none => .error "invalid half moves" : Except String Nat)
        let fullmoves ←
          (match parseU32 p5 with
            | some v => .ok v
            | none => .error "invalid full moves" : Except String Nat)
        pure ⟨board, currentPlayer, castlingRights, whiteEnPassantTarget,
          blackEnPassantTarget, halfmoves, fullmoves⟩)
  | _ => some (.error "fen string must contain exactly 6 parts")

/-- Modelled from the spec: `Color::fen_char` (`w` / `b`). -/
def colorFenChar : Color → String
  | .white => "w"
  | .black => "b"

/-- Modelled from the spec: a piece's FEN letter, uppercase for White. -/
def pieceFenChar : Piece → Char
  | ⟨.white, .pawn⟩ => 'P'
  | ⟨.white, .knight⟩ => 'N'
  | ⟨.white, .bishop⟩ => 'B'
  | ⟨.white, .rook⟩ => 'R'
  | ⟨.white, .queen⟩ => 'Q'
  | ⟨.white, .king⟩ => 'K'
  | ⟨.black, .pawn⟩ => 'p'
  | ⟨.black, .knight⟩ => 'n'
  | ⟨.black, .bishop⟩ => 'b'
  | ⟨.black, .rook⟩ => 'r'
  | ⟨.black, .queen⟩ => 'q'
  | ⟨.black, .king⟩ => 'k'

/-- Modelled from the spec: one rank of the FEN placement output — files A
to H, runs of empty squares collapsed to a digit (spec 4.C). -/
def fenRankString (b : ChessBoard) (rank : Fin 8) : String :=
  let (run, acc) := (List.finRange 8).foldl
    (fun (st : Nat × String) f =>
      match b.getPiece ⟨f, rank⟩ with
      | none => (st.1 + 1, st.2)
      | some piece =>
        let acc := if st.1 > 0 then st.2.push (Char.ofNat (48 + st.1)) else st.2
        (0, acc.push (pieceFenChar piece)))
    (0, "")
  if run > 0 then acc.push (Char.ofNat (48 + run)) else acc

/-- Modelled from the spec: `ChessBoard::to_fen_string` (not present under
`src/`), the placement field from rank 8 down to rank 1 joined with `/`. -/
def boardToFenString (b : ChessBoard) : String :=
  String.intercalate "/"
    (([7, 6, 5, 4, 3, 2, 1, 0] : List (Fin 8)).map fun r => fenRankString b r)

/-- `impl Display for Fen`: the six fields joined by single spaces; the
en-passant field prefers the white target over the black one. -/
def fenToString (f : Fen) : String :=
  String.intercalate " "
    [boardToFenString f.board,
      colorFenChar f.currentPlayer,
      f.castlingRights.asFenString,
      (match f.whiteEnPassantTarget with
        | some p => posToString p
        | none => match f.blackEnPassantTarget with
          | some p => posToString p
          | none => "-"),
      toString f.halfmoves,
      toString f.fullmoves]

/-- `Game::from_fen_string`: parse, build a fresh `MoveManager` from the
record, evaluate the legal moves (which can panic: outer `none`). -/
def Game.fromFenString (s : String) : Option (Except String Game) :=
  match fenFromStr s with
  | none => none
  | some (.error e) => some (.error e)
  | some (.ok fen) =>
    let mm : MoveManager :=
      ⟨[], [], [], fen.whiteEnPassantTarget, fen.blackEnPassantTarget,
        fen.castlingRights, fen.halfmoves, fen.fullmoves⟩
    match mm.evaluateLegalMoves fen.board fen.currentPlayer with
    | none => none
    | some mm2 => some (.ok ⟨fen.currentPlayer, mm2, fen.board⟩)

/-- `Game::to_fen_string`. -/
def Game.toFenString (g : Game) : String :=
  fenToString ⟨g.board, g.currentPlayer, g.moveManager.castlingRights,
    g.moveManager.whiteEnPassantTarget, g.moveManager.blackEnPassantTarget,
    g.moveManager.halfMoves, g.moveManager.fullMoves⟩

/-! Concrete instances used by the theorems below. -/

/-- Extract the game from a successful `from_fen_string` call (an arbitrary
placeholder if parsing did not succeed — every use below is paired with a
proof that it did). -/
def gameOf (s : String) : Game :=
  match Game.fromFenString s with
  | some (Except.ok g) => g
  | _ => ⟨.white, MoveManager.default, ChessBoard.empty⟩

/-- The game reached from the starting position by the double push E2→E4. -/
def gameAfterE2E4 : Option Game :=
  Game.default.bind fun g =>
    match g.makeMove (ChessMove.regular e2 e4) with
    | some (Except.ok g2) => some g2
    | _ => none

/-- The castling rights of the game obtained by parsing `s` and applying
`mv` through `Game::make_move`. -/
def castlingRightsAfter (s : String) (mv : ChessMove) : Option CastlingRights :=
  match Game.fromFenString s with
  | some (Except.ok g) =>
    match g.makeMove mv with
    | some (Except.ok g2) => some g2.moveManager.castlingRights
    | _ => none
  | _ => none

/-- The halfmove-clock reset condition as the specification words it: the
applied move moved a pawn (en-passant and promotion moves always move a
pawn, a castle never does) or captured a piece.  For a `Regular` move the
moved piece is whatever sat on the from-square before the move. -/
def movesPawnOrCaptures (board : ChessBoard) (mv : ChessMove)
    (taken : Option Piece) : Bool :=
  (match mv with
    | .regular f _ =>
      match board.getPiece f with
      | some piece => piece.kind == PieceType.pawn
      | none => false
    | .enPassant _ _ _ _ => true
    | .promotion _ _ _ => true
    | .castle _ _ _ _ => false)
    || taken.isSome

-- Inputs for the halfmove-clock witness: a lone white knight jumping from
-- G1 to F3 with the clock at 5.
def mmClock5 : MoveManager :=
  { MoveManager.default with halfMoves := 5 }

def knightOnlyBoard : ChessBoard :=
  { ChessBoard.empty with
    whiteKnights := bbOne g1, allKnights := bbOne g1,
    whitePieces := bbOne g1, allPieces := bbOne g1 }

def clockWitnessResult : MoveManager × ChessBoard × Option Piece :=
  (MoveManager.makeMove mmClock5 knightOnlyBoard Color.white
    (ChessMove.regular g1 f3)).get (by decide)

/-- An ongoing game for the result-query witness: any game whose stored
legal set is non-empty. -/
def ongoingGame : Game :=
  ⟨.white, { MoveManager.default with legalMoves := [ChessMove.regular e2 e4] },
    ChessBoard.new⟩

def foolsMateFen : String :=
  "rnb1kbnr/pppp1ppp/8/4p3/6Pq/5P2/PPPPP2P/RNBQKBNR w KQkq - 1 3"

def stalemateFen : String := "7k/5K2/6Q1/8/8/8/8/8 b - - 0 1"

deriving instance DecidableEq for Except

/-! The claim theorems. -/

/-- Claim C1, evaluated at its failing inputs.  The castling-rights update
reads only the `from` square of `Regular` moves, so: moving the white rook
off H1 leaves the white kingside right intact (the claim requires it
revoked); moving the black rook off A8 *revokes the white kingside right*
(the claim says only Black's queenside right changes); and capturing the
black rook on its home square H8 revokes nothing (the claim requires the
black kingside right revoked via the `to` square). -/
theorem update_castling_rights_reads_only_from :
    castlingRightsAfter "4k3/8/8/8/8/8/8/4K2R w K - 0 1" (ChessMove.regular h1 h2)
        = some ⟨true, false, false, false⟩
      ∧ castlingRightsAfter "r3k3/8/8/8/8/8/8/4K2R b Kq - 0 1" (ChessMove.regular a8 a7)
        = some ⟨false, false, false, false⟩
      ∧ castlingRightsAfter "4k2r/8/8/8/8/8/8/4K2R w Kk - 0 1" (ChessMove.regular h1 h8)
        = some ⟨true, false, true, false⟩ := by
  refine ⟨?_, ?_, ?_⟩ <;> decide

/-- Claim C2, evaluated at its failing input.  After the reachable move
E2→E4 the game serializes to a FEN whose en-passant field is `e3`, and
parsing that very string fails: the round-trip law does not hold. -/
theorem fen_round_trip_fails_after_double_push :
    gameAfterE2E4.map Game.toFenString
        = some "rnbqkbnr/pppppppp/8/8/4P3/8/PPPP1PPP/RNBQKBNR b KQkq e3 0 1"
      ∧ Game.fromFenString "rnbqkbnr/pppppppp/8/8/4P3/8/PPPP1PPP/RNBQKBNR b KQkq e3 0 1"
        = some (Except.error "invalid en passant target") := by
  constructor <;> decide

/-- Claim C3, evaluated at its failing inputs.  First position: the white
queenside right is intact, B1/C1/D1 are empty and none of E1, D1, C1 is
attacked, yet the queenside castle is **not** in the legal-move set (the
code additionally demands B1 unattacked).  Second position: E1 is attacked
(White is in check), yet the kingside castle **is** in the legal-move set
(the code never tests the king's own square). -/
theorem castle_legality_mismatches_attack_conditions :
    Game.fromFenString "1r5k/8/8/8/8/8/8/R3K3 w Q - 0 1"
        = some (Except.ok (gameOf "1r5k/8/8/8/8/8/8/R3K3 w Q - 0 1"))
      ∧ (gameOf "1r5k/8/8/8/8/8/8/R3K3 w Q - 0 1").moveManager.castlingRights.whiteQueenside
        = true
      ∧ (gameOf "1r5k/8/8/8/8/8/8/R3K3 w Q - 0 1").board.hasPieceAt b1 = false
      ∧ (gameOf "1r5k/8/8/8/8/8/8/R3K3 w Q - 0 1").board.hasPieceAt c1 = false
      ∧ (gameOf "1r5k/8/8/8/8/8/8/R3K3 w Q - 0 1").board.hasPieceAt d1 = false
      ∧ isUnderAttack (gameOf "1r5k/8/8/8/8/8/8/R3K3 w Q - 0 1").board e1 Color.black = false
      ∧ isUnderAttack (gameOf "1r5k/8/8/8/8/8/8/R3K3 w Q - 0 1").board d1 Color.black = false
      ∧ isUnderAttack (gameOf "1r5k/8/8/8/8/8/8/R3K3 w Q - 0 1").board c1 Color.black = false
      ∧ (gameOf "1r5k/8/8/8/8/8/8/R3K3 w Q - 0 1").moveManager.legalMoves.contains
          (ChessMove.castle a1 d1 e1 c1) = false
      ∧ Game.fromFenString "4r2k/8/8/8/8/8/8/4K2R w K - 0 1"
        = some (Except.ok (gameOf "4r2k/8/8/8/8/8/8/4K2R w K - 0 1"))
      ∧ isUnderAttack (gameOf "4r2k/8/8/8/8/8/8/4K2R w K - 0 1").board e1 Color.black = true
      ∧ (gameOf "4r2k/8/8/8/8/8/8/4K2R w K - 0 1").moveManager.legalMoves.contains
          (ChessMove.castle h1 f1 e1 g1) = true := by
  refine ⟨?_, ?_, ?_, ?_, ?_, ?_, ?_, ?_, ?_, ?_, ?_, ?_⟩ <;> decide

/-- Claim C4, evaluated at its failing inputs.  The castling-rights parser
maps `"-"` to all four rights held (the claim requires all four revoked)
and accepts the out-of-order string `"qK"` (the claim requires letters in
`KQkq` order); the serializer nonetheless emits `"-"` only for the
all-false state. -/
theorem castling_rights_dash_parses_to_all_true :
    CastlingRights.fromStr "-" = .ok ⟨true, true, true, true⟩
      ∧ CastlingRights.fromStr "qK" = .ok ⟨true, false, false, true⟩
      ∧ CastlingRights.asFenString ⟨false, false, false, false⟩ = "-" := by
  refine ⟨?_, ?_, ?_⟩ <;> decide

/-- Claim C5, evaluated at its failing inputs.  The en-passant field parser
rejects the squares `e3` and `d6` (ranks 3 and 6, the ones the claim says
are accepted) and instead accepts `e7` and `e2` (ranks 7 and 2, which the
claim says are rejected). -/
theorem en_passant_field_accepts_ranks_seven_and_two :
    parseEnPassantField "e3" = .error "invalid en passant target"
      ∧ parseEnPassantField "d6" = .error "invalid en passant target"
      ∧ parseEnPassantField "e7" = .ok (none, some ⟨4, 6⟩)
      ∧ parseEnPassantField "e2" = .ok (some ⟨4, 1⟩, none) := by
  refine ⟨?_, ?_, ?_, ?_⟩ <;> decide

/-- Claim C6, evaluated at its failing inputs.  A FEN with no king of
either color parses successfully (the claim requires a parse-time error),
and the subsequent `game_result` query on the parsed game panics — the
`first_position().unwrap()` inside `is_in_check` — modelled by `none` (the
claim says no post-parse operation may fail).  A FEN with a pawn on rank 8
also parses successfully. -/
theorem kingless_fen_parses_and_panics_later :
    Game.fromFenString "8/8/8/8/8/8/8/8 w - - 0 1"
        = some (Except.ok (gameOf "8/8/8/8/8/8/8/8 w - - 0 1"))
      ∧ (gameOf "8/8/8/8/8/8/8/8 w - - 0 1").gameResult = none
      ∧ Game.fromFenString "P7/8/8/8/8/8/8/3K3k w - - 0 1"
        = some (Except.ok (gameOf "P7/8/8/8/8/8/8/3K3k w - - 0 1")) := by
  refine ⟨?_, ?_, ?_⟩ <;> decide

/-- Claim C7: `make_move` returns an error exactly when the game is
already over or the move is not in the current legal set.  (In this
functional embedding both error paths return before any state is built, so
the strong-exception-safety half of the claim is inherent: an erroring call
leaves the caller with the unchanged `Game`.) -/
theorem make_move_errors_iff_over_or_illegal (g : Game) (mv : ChessMove) :
    (∃ e, g.makeMove mv = some (Except.error e)) ↔
      (g.isOver = true ∨ g.moveManager.isLegal mv = false) := by
  constructor
  · rintro ⟨e, he⟩
    by_cases h1 : g.isOver
    · exact Or.inl h1
    · by_cases h2 : g.moveManager.isLegal mv
      · exfalso
        simp only [Game.makeMove, h1, h2, not_true, Bool.false_eq_true, if_neg,
          ite_false, Option.bind_eq_bind] at he
        rcases Option.bind_eq_some.mp he with ⟨⟨mm1, b1, t1⟩, hmm, he2⟩
        dsimp only at he2
        rcases Option.bind_eq_some.mp he2 with ⟨mm2, hev, he3⟩
        simp at he3
      · exact Or.inr (by simpa using h2)
  · intro h
    by_cases h1 : g.isOver
    · exact ⟨"game is over", by simp [Game.makeMove, h1]⟩
    · rcases h with h | h
      · exact absurd h (by simpa using h1)
      · exact ⟨"illegal move", by simp [Game.makeMove, h1, h]⟩

/-- Claim C8: the result query is `None` exactly while the stored legal
set is non-empty; once it is empty, the side to move being in check yields
a win for the opponent and not being in check yields a draw.  The
in-check hypothesis (`some b`) is the statement that the side to move has
a king, which holds in every reachable game. -/
theorem game_result_classification (g : Game) :
    (g.isOver = false → g.gameResult = some none)
      ∧ (∀ b, g.isOver = true → isInCheck g.board g.currentPlayer = some b →
          g.gameResult = some (some (if b then GameOver.winner g.currentPlayer.opponent
            else GameOver.draw))) := by
  constructor
  · intro h; simp [Game.gameResult, h]
  · intro b h1 h2; simp [Game.gameResult, h1, h2]

/-- Witness for C8: an ongoing game reports no result, the fool's-mate
position reports a win for Black, and a stalemate position reports a
draw. -/
theorem game_result_classification_witness :
    ongoingGame.gameResult = some none
      ∧ (gameOf foolsMateFen).gameResult = some (some (GameOver.winner Color.black))
      ∧ (gameOf stalemateFen).gameResult = some (some GameOver.draw) := by
  refine ⟨(game_result_classification ongoingGame).1 (by decide), ?_, ?_⟩
  · have h := (game_result_classification (gameOf foolsMateFen)).2 true (by decide) (by decide)
    rw [h]; decide
  · have h := (game_result_classification (gameOf stalemateFen)).2 false (by decide) (by decide)
    rw [h]; decide

/-- Claim C9: after any successful `make_move`, the halfmove clock is 0
when the applied move moved a pawn (en passant and promotion included) or
captured a piece, and is the old value plus one otherwise (castling in
particular increments it). -/
theorem halfmove_clock_reset_iff_pawn_move_or_capture
    (mm : MoveManager) (board : ChessBoard) (player : Color) (mv : ChessMove)
    (res : MoveManager × ChessBoard × Option Piece)
    (h : MoveManager.makeMove mm board player mv = some res) :
    res.1.halfMoves =
      if movesPawnOrCaptures board mv res.2.2 then 0 else mm.halfMoves + 1 := by
  unfold MoveManager.makeMove at h
  simp only [Option.bind_eq_bind] at h
  cases mv with
  | castle rf rt kf kt =>
    simp only [Option.pure_def, Option.some_bind] at h
    rcases Option.bind_eq_some.mp h with ⟨⟨b2, tk⟩, hd, h3⟩
    dsimp only at h3
    obtain rfl := (Option.some.inj h3).symm
    cases player <;>
      simp [movesPawnOrCaptures, ChessMove.isEnPassant, ChessMove.isPromotion,
        apply_ite MoveManager.halfMoves]
  | enPassant f t toi ti =>
    simp only [Option.pure_def, Option.some_bind] at h
    rcases Option.bind_eq_some.mp h with ⟨⟨b2, tk⟩, hd, h3⟩
    dsimp only at h3
    obtain rfl := (Option.some.inj h3).symm
    cases player <;>
      simp [movesPawnOrCaptures, ChessMove.isEnPassant, ChessMove.isPromotion,
        apply_ite MoveManager.halfMoves]
  | promotion f t pp =>
    simp only [Option.pure_def, Option.some_bind] at h
    rcases Option.bind_eq_some.mp h with ⟨⟨b2, tk⟩, hd, h3⟩
    dsimp only at h3
    obtain rfl := (Option.some.inj h3).symm
    cases player <;>
      simp [movesPawnOrCaptures, ChessMove.isEnPassant, ChessMove.isPromotion,
        apply_ite MoveManager.halfMoves]
  | regular f t =>
    dsimp only at h
    rcases hp : board.getPiece f with _ | ⟨pcol, pkind⟩
    case regular.none =>
      rw [hp] at h; dsimp only at h
      simp only [Option.pure_def, Option.some_bind] at h
      rcases Option.bind_eq_some.mp h with ⟨⟨b2, tk⟩, hd, h3⟩
      dsimp only at h3
      obtain rfl := (Option.some.inj h3).symm
      cases player <;>
        simp [movesPawnOrCaptures, hp, ChessMove.isEnPassant, ChessMove.isPromotion,
          MoveManager.updateCastlingRights, apply_ite MoveManager.halfMoves]
    case some.mk =>
      cases pkind with
      | pawn =>
        rw [hp] at h; dsimp only at h
        by_cases hc : f.file = t.file ∧ f.manhattanDistanceTo t = 2
        · rw [if_pos hc] at h
          cases pcol with
          | black =>
            rcases hr : rankDown f.rank with _ | r <;> rw [hr] at h
            · simp at h
            · simp only [Option.pure_def, Option.some_bind] at h
              rcases Option.bind_eq_some.mp h with ⟨⟨b2, tk⟩, hd, h3⟩
              dsimp only at h3
              obtain rfl := (Option.some.inj h3).symm
              cases player <;>
                simp [movesPawnOrCaptures, hp, ChessMove.isEnPassant, ChessMove.isPromotion,
                  MoveManager.updateCastlingRights, apply_ite MoveManager.halfMoves]
          | white =>
            rcases hr : rankUp f.rank with _ | r <;> rw [hr] at h
            · simp at h
            · simp only [Option.pure_def, Option.some_bind] at h
              rcases Option.bind_eq_some.mp h with ⟨⟨b2, tk⟩, hd, h3⟩
              dsimp only at h3
              obtain rfl := (Option.some.inj h3).symm
              cases player <;>
                simp [movesPawnOrCaptures, hp, ChessMove.isEnPassant, ChessMove.isPromotion,
                  MoveManager.updateCastlingRights, apply_ite MoveManager.halfMoves]
        · rw [if_neg hc] at h
          simp only [Option.pure_def, Option.some_bind] at h
          rcases Option.bind_eq_some.mp h with ⟨⟨b2, tk⟩, hd, h3⟩
          dsimp only at h3
          obtain rfl := (Option.some.inj h3).symm
          cases player <;>
            simp [movesPawnOrCaptures, hp, ChessMove.isEnPassant, ChessMove.isPromotion,
              MoveManager.updateCastlingRights, apply_ite MoveManager.halfMoves]
      | knight =>
        rw [hp] at h; dsimp only at h
        simp only [Option.pure_def, Option.some_bind] at h
        rcases Option.bind_eq_some.mp h with ⟨⟨b2, tk⟩, hd, h3⟩
        dsimp only at h3
        obtain rfl := (Option.some.inj h3).symm
        cases player <;>
          simp [movesPawnOrCaptures, hp, ChessMove.isEnPassant, ChessMove.isPromotion,
            MoveManager.updateCastlingRights, apply_ite MoveManager.halfMoves]
      | bishop =>
        rw [hp] at h; dsimp only at h
        simp only [Option.pure_def, Option.some_bind] at h
        rcases Option.bind_eq_some.mp h with ⟨⟨b2, tk⟩, hd, h3⟩
        dsimp only at h3
        obtain rfl := (Option.some.inj h3).symm
        cases player <;>
          simp [movesPawnOrCaptures, hp, ChessMove.isEnPassant, ChessMove.isPromotion,
            MoveManager.updateCastlingRights, apply_ite MoveManager.halfMoves]
      | rook =>
        rw [hp] at h; dsimp only at h
        simp only [Option.pure_def, Option.some_bind] at h
        rcases Option.bind_eq_some.mp h with ⟨⟨b2, tk⟩, hd, h3⟩
        dsimp only at h3
        obtain rfl := (Option.some.inj h3).symm
        cases player <;>
          simp [movesPawnOrCaptures, hp, ChessMove.isEnPassant, ChessMove.isPromotion,
            MoveManager.updateCastlingRights, apply_ite MoveManager.halfMoves]
      | queen =>
        rw [hp] at h; dsimp only at h
        simp only [Option.pure_def, Option.some_bind] at h
        rcases Option.bind_eq_some.mp h with ⟨⟨b2, tk⟩, hd, h3⟩
        dsimp only at h3
        obtain rfl := (Option.some.inj h3).symm
        cases player <;>
          simp [movesPawnOrCaptures, hp, ChessMove.isEnPassant, ChessMove.isPromotion,
            MoveManager.updateCastlingRights, apply_ite MoveManager.halfMoves]
      | king =>
        rw [hp] at h; dsimp only at h
        simp only [Option.pure_def, Option.some_bind] at h
        rcases Option.bind_eq_some.mp h with ⟨⟨b2, tk⟩, hd, h3⟩
        dsimp only at h3
        obtain rfl := (Option.some.inj h3).symm
        cases player <;>
          simp [movesPawnOrCaptures, hp, ChessMove.isEnPassant, ChessMove.isPromotion,
            MoveManager.updateCastlingRights, apply_ite MoveManager.halfMoves]

/-- Witness for C9: a lone white knight jumping G1→F3 (no pawn, no
capture) bumps the halfmove clock from 5 to 6. -/
theorem halfmove_clock_reset_witness :
    clockWitnessResult.1.halfMoves = 6 := by
  have h : MoveManager.makeMove mmClock5 knightOnlyBoard Color.white (ChessMove.regular g1 f3)
      = some clockWitnessResult := (Option.some_get _).symm
  have h2 := halfmove_clock_reset_iff_pawn_move_or_capture mmClock5 knightOnlyBoard
    Color.white (ChessMove.regular g1 f3) clockWitnessResult h
  rw [h2]
  decide

/-- Claim C10: pawn move generation from a pawn standing on rank 1 or
rank 8 returns the empty set, silently — the source's early return. -/
theorem pawn_moves_from_back_ranks_empty (mm : MoveManager) (board : ChessBoard)
    (from_ : Position) (player : Color)
    (h : from_.rank = (0 : Fin 8) ∨ from_.rank = (7 : Fin 8)) :
    mm.evaluateLegalPawnMovesFrom board from_ player = [] := by
  unfold MoveManager.evaluateLegalPawnMovesFrom
  exact if_pos h

/-- Witness for C10: a pawn placed on A8 generates no moves. -/
theorem pawn_moves_from_back_ranks_empty_witness :
    MoveManager.default.evaluateLegalPawnMovesFrom ChessBoard.new a8 Color.white = [] :=
  pawn_moves_from_back_ranks_empty MoveManager.default ChessBoard.new a8 Color.white
    (Or.inr (by decide))

end Chess
